import Mathlib

/-!
Verification of the address-translation and page-replacement engine of
`virtual_memory_manager.cpp` (class `VirtualMemoryManager`).

Modelling conventions:
- `size_t` quantities are modelled as unbounded naturals and `int` as `Int`
  (with `-1` sentinels kept literally, as in the source).  All quantities
  arising in a run are bounded by the configured memory size, so 64-bit
  wrap-around never occurs for realistic configurations and is omitted;
  the single place where the source converts an `int` to `size_t`
  (`static_cast<size_t>(frameNum)`) is modelled by `intToSizeT`.
- Operations whose C++ behaviour is undefined (indexing a vector out of
  bounds, reading the front or back of an empty queue or list, the
  constructor dividing by zero) are modelled as `Option` failures: a
  function returns `none` exactly when the C++ program would perform such
  an undefined operation.  Theorems below show the `none` branches are
  unreachable for well-configured engines.
- The `lruMap` of the source is an `unordered_map` from page number to a
  list iterator used purely as an O(1) membership-and-position index into
  `lruList`: the source keeps its key set identical to the set of elements
  of `lruList` (`addLRU` inserts into both, eviction erases from both).
  The model therefore renders the test `lruMap.find(pageNum) != end` as
  membership in `lruList`, and erasing the iterator as erasing the (unique)
  occurrence of the page from the list.
-/

/-- A memory segment: `struct Segment`. -/
structure Segment where
  name : String
  base : Nat
  limit : Nat
deriving Repr, DecidableEq

/-- A page table entry: `struct PageTableEntry` (frameNumber = -1, valid = false initially). -/
structure PageTableEntry where
  frameNumber : Int
  valid : Bool
deriving Repr, DecidableEq

/-- `enum class ReplacementPolicy`. -/
inductive ReplacementPolicy where
  | FIFO
  | LRU
deriving Repr, DecidableEq

/-- The state of `class VirtualMemoryManager`. -/
structure VirtualMemoryManager where
  pageSize : Nat
  numFrames : Nat
  numPages : Nat
  segments : List Segment
  pageTable : List PageTableEntry
  frameTable : List Int
  policy : ReplacementPolicy
  fifoQueue : List Nat
  lruList : List Nat
  pageFaults : Nat
  accesses : Nat
deriving Repr, DecidableEq

/-- The constructor `VirtualMemoryManager(memSize, pageSz, segNames, pol)`.
It performs no validation.  The C++ divisions `memSize / pageSz` and
`memSize / segNames.size()` are undefined behaviour when the divisor is
zero; Lean natural division returns 0 there, and the theorems about
construction carry the corresponding positivity hypotheses. -/
def mkVMM (memSize pageSz : Nat) (segNames : List String) (pol : ReplacementPolicy) :
    VirtualMemoryManager :=
  let numFrames := memSize / pageSz
  let numPages := memSize / pageSz
  let segSize := memSize / segNames.length
  { pageSize := pageSz
    numFrames := numFrames
    numPages := numPages
    segments := (List.range segNames.length).map
      (fun i => { name := segNames.getD i "", base := i * segSize, limit := segSize })
    pageTable := List.replicate numPages { frameNumber := -1, valid := false }
    frameTable := List.replicate numFrames (-1)
    policy := pol
    fifoQueue := []
    lruList := []
    pageFaults := 0
    accesses := 0 }

/-- The scan `for (i = 0; i < frameTable.size(); ++i) if (frameTable[i] == -1) ...`
in `handlePageFault`, started with accumulator `i`; returns the index of the
first free frame, or -1 when every frame is occupied. -/
def findFreeFrame : List Int → Nat → Int
  | [], _ => -1
  | v :: rest, i => if v = -1 then (i : Int) else findFreeFrame rest (i + 1)

/-- Bounds-checked write `pageTable[i] = e` (C++ indexing out of range is
undefined behaviour, rendered as `none`). -/
def setPTE (pt : List PageTableEntry) (i : Nat) (e : PageTableEntry) :
    Option (List PageTableEntry) :=
  if i < pt.length then some (pt.set i e) else none

/-- Bounds-checked write `frameTable[i] = v` at an `int` index. -/
def setFrameI (ft : List Int) (i : Int) (v : Int) : Option (List Int) :=
  if 0 ≤ i ∧ i.toNat < ft.length then some (ft.set i.toNat v) else none

/-- The shared eviction steps of `handlePageFault` (lines 160-163 and 165-170):
read `freeFrame = pageTable[victimPage].frameNumber`, set
`pageTable[victimPage].valid = false`, set `frameTable[freeFrame] = -1`.
The caller has already removed `victimPage` from its tracker. -/
def evictVictim (vm : VirtualMemoryManager) (victimPage : Nat) :
    Option (VirtualMemoryManager × Int) :=
  match vm.pageTable[victimPage]? with
  | none => none
  | some ve =>
    match setFrameI vm.frameTable ve.frameNumber (-1) with
    | none => none
    | some ft1 =>
      some ({ vm with
                pageTable := vm.pageTable.set victimPage { ve with valid := false },
                frameTable := ft1 },
            ve.frameNumber)

/-- `addLRU(pageNum)`: push the page to the front of `lruList` (and record it
in `lruMap`, which the model tracks through list membership). -/
def addLRU (vm : VirtualMemoryManager) (pageNum : Nat) : VirtualMemoryManager :=
  { vm with lruList := pageNum :: vm.lruList }

/-- `updateLRU(pageNum)`: if the page is tracked (`lruMap.find != end`,
i.e. it is in `lruList`), erase it from its position and re-insert at the
front. -/
def updateLRU (vm : VirtualMemoryManager) (pageNum : Nat) : VirtualMemoryManager :=
  if pageNum ∈ vm.lruList then
    { vm with lruList := pageNum :: vm.lruList.erase pageNum }
  else vm

/-- `handlePageFault(pageNum)` (lines 150-179): find a free frame, evicting a
victim chosen by the active policy when none is free, then load the page. -/
def handlePageFault (vm : VirtualMemoryManager) (pageNum : Nat) :
    Option VirtualMemoryManager :=
  let freeFrame0 := findFreeFrame vm.frameTable 0
  let step1 : Option (VirtualMemoryManager × Int) :=
    if freeFrame0 = -1 then
      match vm.policy with
      | ReplacementPolicy.FIFO =>
        match vm.fifoQueue with
        | [] => none
        | victimPage :: rest => evictVictim { vm with fifoQueue := rest } victimPage
      | ReplacementPolicy.LRU =>
        match vm.lruList.getLast? with
        | none => none
        | some victimPage => evictVictim { vm with lruList := vm.lruList.dropLast } victimPage
    else some (vm, freeFrame0)
  match step1 with
  | none => none
  | some (vm1, freeFrame) =>
    match setPTE vm1.pageTable pageNum { frameNumber := freeFrame, valid := true } with
    | none => none
    | some pt2 =>
      match setFrameI vm1.frameTable freeFrame (Int.ofNat pageNum) with
      | none => none
      | some ft2 =>
        let vm2 := { vm1 with pageTable := pt2, frameTable := ft2 }
        match vm2.policy with
        | ReplacementPolicy.FIFO => some { vm2 with fifoQueue := vm2.fifoQueue ++ [pageNum] }
        | ReplacementPolicy.LRU => some (addLRU vm2 pageNum)

/-- `static_cast<size_t>(n)` for an `int` value `n` (two's complement; the
value is in the range of `int`, far above `-2^64`). -/
def intToSizeT (n : Int) : Nat :=
  if 0 ≤ n then n.toNat else (n + 2 ^ 64).toNat

/-- The observable outcome of one `accessAddress` call: either one of the two
rejection messages, or the translation data the function prints. -/
inductive AccessResult where
  | invalidSegment
  | offsetOutOfBounds
  | ok (logicalAddr physicalAddr : Nat) (frameNum : Int) (pageOffset : Nat) (faulted : Bool)
deriving Repr, DecidableEq

/-- Lines 139-143 of `accessAddress`: the LRU bookkeeping and the final
physical-address computation, shared by the hit and the fault path. -/
def finishAccess (vm : VirtualMemoryManager) (logicalAddr pageNum pageOffset : Nat)
    (faulted : Bool) : Option (VirtualMemoryManager × AccessResult) :=
  let vmC := if vm.policy = ReplacementPolicy.LRU then updateLRU vm pageNum else vm
  match vmC.pageTable[pageNum]? with
  | none => none
  | some e2 =>
    some (vmC,
      AccessResult.ok logicalAddr
        (intToSizeT e2.frameNumber * vmC.pageSize + pageOffset)
        e2.frameNumber pageOffset faulted)

/-- `accessAddress(segIdx, offset)` (lines 120-144). -/
def accessAddress (vm : VirtualMemoryManager) (segIdx offset : Nat) :
    Option (VirtualMemoryManager × AccessResult) :=
  match vm.segments[segIdx]? with
  | none => some (vm, AccessResult.invalidSegment)
  | some seg =>
    if seg.limit ≤ offset then some (vm, AccessResult.offsetOutOfBounds)
    else
      let logicalAddr := seg.base + offset
      let pageNum := logicalAddr / vm.pageSize
      let pageOffset := logicalAddr % vm.pageSize
      let vmA := { vm with accesses := vm.accesses + 1 }
      match vmA.pageTable[pageNum]? with
      | none => none
      | some e =>
        if e.valid = false then
          match handlePageFault { vmA with pageFaults := vmA.pageFaults + 1 } pageNum with
          | none => none
          | some vmF => finishAccess vmF logicalAddr pageNum pageOffset true
        else
          finishAccess vmA logicalAddr pageNum pageOffset false

/-- The eviction-order container consulted by the active policy. -/
def tracker (vm : VirtualMemoryManager) : List Nat :=
  match vm.policy with
  | ReplacementPolicy.FIFO => vm.fifoQueue
  | ReplacementPolicy.LRU => vm.lruList

/-- The state produced by a fault on page `p` that found free frame `f`:
the explicit form of the `handlePageFault` result when the eviction branch is
not taken (proof infrastructure naming the handler's result state). -/
def faultLoad (vm : VirtualMemoryManager) (p f : Nat) : VirtualMemoryManager :=
  { vm with
      pageTable := vm.pageTable.set p { frameNumber := Int.ofNat f, valid := true }
      frameTable := vm.frameTable.set f (Int.ofNat p)
      fifoQueue :=
        if vm.policy = ReplacementPolicy.FIFO then vm.fifoQueue ++ [p] else vm.fifoQueue
      lruList :=
        if vm.policy = ReplacementPolicy.LRU then p :: vm.lruList else vm.lruList }

/-- Indices of page table entries whose valid bit is set. -/
def residentSet (vm : VirtualMemoryManager) : Finset Nat :=
  (Finset.range vm.pageTable.length).filter
    (fun p => (vm.pageTable.getD p { frameNumber := -1, valid := false }).valid = true)

/-- Indices of occupied frames (`frameTable[f] != -1`). -/
def occupiedSet (vm : VirtualMemoryManager) : Finset Nat :=
  (Finset.range vm.frameTable.length).filter (fun f => vm.frameTable.getD f (-1) ≠ -1)

/-- Number of resident pages. -/
def residentCount (vm : VirtualMemoryManager) : Nat := (residentSet vm).card

/-- Number of occupied frames. -/
def occupiedCount (vm : VirtualMemoryManager) : Nat := (occupiedSet vm).card

/-- Number of free frames (`frameTable[f] == -1`). -/
def freeFrameCount (vm : VirtualMemoryManager) : Nat :=
  ((Finset.range vm.frameTable.length).filter (fun f => vm.frameTable.getD f (-1) = -1)).card

/-- The representation invariant of the engine: table lengths agree with the
configured counts, frame count equals page count, each segment lies inside the
paged address range, the page-to-frame and frame-to-page maps are mutual
inverses on resident pages, and the active tracker holds exactly the resident
pages, each once. -/
structure EngineInv (vm : VirtualMemoryManager) : Prop where
  ptLen : vm.pageTable.length = vm.numPages
  ftLen : vm.frameTable.length = vm.numFrames
  framesEqPages : vm.numFrames = vm.numPages
  segBound : ∀ seg ∈ vm.segments, seg.base + seg.limit ≤ vm.numPages * vm.pageSize
  pageFrame : ∀ p e, vm.pageTable[p]? = some e → e.valid = true →
    ∃ f : Nat, e.frameNumber = Int.ofNat f ∧ vm.frameTable[f]? = some (Int.ofNat p)
  framePage : ∀ f v, vm.frameTable[f]? = some v → v ≠ -1 →
    ∃ (p : Nat) (e : PageTableEntry), v = Int.ofNat p ∧ vm.pageTable[p]? = some e ∧
      e.valid = true ∧ e.frameNumber = Int.ofNat f
  trackNodup : (tracker vm).Nodup
  trackMem : ∀ p, p ∈ tracker vm ↔ ∃ e, vm.pageTable[p]? = some e ∧ e.valid = true

/-- States reachable from `init` by any sequence of `accessAddress` calls
whose C++ execution is defined. -/
inductive Reachable (init : VirtualMemoryManager) : VirtualMemoryManager → Prop where
  | refl : Reachable init init
  | step {vm vm' : VirtualMemoryManager} {segIdx offset : Nat} {r : AccessResult} :
      Reachable init vm → accessAddress vm segIdx offset = some (vm', r) →
      Reachable init vm'

/-! Basic helper lemmas. -/

lemma lt_length_of_getElem?_some {α : Type _} {l : List α} {i : Nat} {a : α}
    (h : l[i]? = some a) : i < l.length := by
  rcases List.getElem?_eq_some.mp h with ⟨hlt, _⟩
  exact hlt

lemma mem_of_getElem?_some {α : Type _} {l : List α} {i : Nat} {a : α}
    (h : l[i]? = some a) : a ∈ l := by
  rcases List.getElem?_eq_some.mp h with ⟨hlt, rfl⟩
  exact List.getElem_mem hlt

lemma toNat_ofNat_eq (n : Nat) : (Int.ofNat n).toNat = n := rfl

lemma ofNat_ne_neg_one (i : Nat) : Int.ofNat i ≠ -1 := by
  intro h
  rw [Int.ofNat_eq_coe] at h
  omega

lemma findFreeFrame_neg_one : ∀ (ft : List Int) (i : Nat),
    findFreeFrame ft i = -1 → ∀ v ∈ ft, v ≠ -1 := by
  intro ft
  induction ft with
  | nil => intro i _ v hv; cases hv
  | cons a rest ih =>
    intro i h v hv
    by_cases ha : a = -1
    · simp only [findFreeFrame, ha, if_pos rfl] at h
      exact absurd h (ofNat_ne_neg_one i)
    · simp only [findFreeFrame, if_neg ha] at h
      rcases List.mem_cons.mp hv with rfl | hv'
      · exact ha
      · exact ih (i + 1) h v hv'

lemma findFreeFrame_found : ∀ (ft : List Int) (i : Nat),
    findFreeFrame ft i ≠ -1 →
    ∃ j : Nat, findFreeFrame ft i = Int.ofNat (i + j) ∧ ft[j]? = some (-1) := by
  intro ft
  induction ft with
  | nil => intro i h; simp [findFreeFrame] at h
  | cons a rest ih =>
    intro i h
    by_cases ha : a = -1
    · refine ⟨0, ?_, by simp [ha]⟩
      simp [findFreeFrame, ha]
    · simp only [findFreeFrame, if_neg ha] at h ⊢
      rcases ih (i + 1) h with ⟨j, hj, hget⟩
      exact ⟨j + 1, by rw [hj]; congr 1; omega, by simpa using hget⟩

lemma tracker_eq_of_fields {vm vm' : VirtualMemoryManager}
    (hpol : vm'.policy = vm.policy) (hfq : vm'.fifoQueue = vm.fifoQueue)
    (hlr : vm'.lruList = vm.lruList) : tracker vm' = tracker vm := by
  unfold tracker
  rw [hpol, hfq, hlr]

/-- The invariant only depends on the non-counter fields. -/
lemma EngineInv.of_fields {vm vm' : VirtualMemoryManager} (h : EngineInv vm)
    (hpt : vm'.pageTable = vm.pageTable) (hft : vm'.frameTable = vm.frameTable)
    (hseg : vm'.segments = vm.segments) (hnp : vm'.numPages = vm.numPages)
    (hnf : vm'.numFrames = vm.numFrames) (hps : vm'.pageSize = vm.pageSize)
    (hpol : vm'.policy = vm.policy) (hfq : vm'.fifoQueue = vm.fifoQueue)
    (hlr : vm'.lruList = vm.lruList) : EngineInv vm' := by
  have htr := tracker_eq_of_fields hpol hfq hlr
  refine ⟨?_, ?_, ?_, ?_, ?_, ?_, ?_, ?_⟩
  · rw [hpt, hnp]; exact h.ptLen
  · rw [hft, hnf]; exact h.ftLen
  · rw [hnf, hnp]; exact h.framesEqPages
  · rw [hseg, hnp, hps]; exact h.segBound
  · rw [hpt, hft]; exact h.pageFrame
  · rw [hpt, hft]; exact h.framePage
  · rw [htr]; exact h.trackNodup
  · rw [htr, hpt]; exact h.trackMem

/-! Counting: the number of occupied frames never exceeds the number of
resident pages, hence when no frame is free every page is resident. -/

lemma mem_residentSet {vm : VirtualMemoryManager} {p : Nat} :
    p ∈ residentSet vm ↔
      ∃ e, vm.pageTable[p]? = some e ∧ e.valid = true := by
  unfold residentSet
  simp only [Finset.mem_filter, Finset.mem_range]
  constructor
  · rintro ⟨hlt, hval⟩
    refine ⟨vm.pageTable[p], List.getElem?_eq_getElem hlt, ?_⟩
    rw [List.getD_eq_getElem?_getD, List.getElem?_eq_getElem hlt] at hval
    exact hval
  · rintro ⟨e, he, hval⟩
    have hlt := lt_length_of_getElem?_some he
    refine ⟨hlt, ?_⟩
    rw [List.getD_eq_getElem?_getD, he]
    exact hval

lemma mem_occupiedSet {vm : VirtualMemoryManager} {f : Nat} :
    f ∈ occupiedSet vm ↔
      ∃ v, vm.frameTable[f]? = some v ∧ v ≠ -1 := by
  unfold occupiedSet
  simp only [Finset.mem_filter, Finset.mem_range]
  constructor
  · rintro ⟨hlt, hocc⟩
    refine ⟨vm.frameTable[f], List.getElem?_eq_getElem hlt, ?_⟩
    rw [List.getD_eq_getElem?_getD, List.getElem?_eq_getElem hlt] at hocc
    exact hocc
  · rintro ⟨v, hv, hocc⟩
    have hlt := lt_length_of_getElem?_some hv
    refine ⟨hlt, ?_⟩
    rw [List.getD_eq_getElem?_getD, hv]
    exact hocc

lemma occupied_le_resident {vm : VirtualMemoryManager} (h : EngineInv vm) :
    occupiedCount vm ≤ residentCount vm := by
  unfold occupiedCount residentCount
  refine Finset.card_le_card_of_injOn
    (fun f => (vm.frameTable.getD f (-1)).toNat) ?_ ?_
  · intro f hf
    rcases mem_occupiedSet.mp hf with ⟨v, hv, hocc⟩
    rcases h.framePage f v hv hocc with ⟨p, e, rfl, hpe, hval, _⟩
    show (vm.frameTable.getD f (-1)).toNat ∈ residentSet vm
    rw [List.getD_eq_getElem?_getD, hv]
    have htn : (Int.ofNat p).toNat = p := rfl
    rw [Option.getD_some, htn]
    exact mem_residentSet.mpr ⟨e, hpe, hval⟩
  · intro f1 hf1 f2 hf2 heq
    simp only [Finset.mem_coe] at hf1 hf2
    rcases mem_occupiedSet.mp hf1 with ⟨v1, hv1, hocc1⟩
    rcases mem_occupiedSet.mp hf2 with ⟨v2, hv2, hocc2⟩
    rcases h.framePage f1 v1 hv1 hocc1 with ⟨p1, e1, rfl, hpe1, hval1, hfr1⟩
    rcases h.framePage f2 v2 hv2 hocc2 with ⟨p2, e2, rfl, hpe2, hval2, hfr2⟩
    simp only [List.getD_eq_getElem?_getD, hv1, hv2, Option.getD_some] at heq
    have hp : p1 = p2 := by
      have h1 : (Int.ofNat p1).toNat = p1 := rfl
      have h2 : (Int.ofNat p2).toNat = p2 := rfl
      rw [h1, h2] at heq
      exact heq
    subst hp
    rw [hpe1] at hpe2
    injection hpe2 with he
    subst he
    have hff : Int.ofNat f1 = Int.ofNat f2 := by rw [← hfr1, hfr2]
    exact Int.ofNat.inj hff

lemma no_free_all_valid {vm : VirtualMemoryManager} (h : EngineInv vm)
    (hnf : findFreeFrame vm.frameTable 0 = -1) :
    ∀ p, p < vm.pageTable.length →
      ∃ e, vm.pageTable[p]? = some e ∧ e.valid = true := by
  have hall : ∀ v ∈ vm.frameTable, v ≠ -1 := findFreeFrame_neg_one _ _ hnf
  have hocc : occupiedSet vm = Finset.range vm.frameTable.length := by
    apply Finset.eq_of_subset_of_card_le
    · exact Finset.filter_subset _ _
    · apply Finset.card_le_card
      intro f hf
      have hlt := Finset.mem_range.mp hf
      exact mem_occupiedSet.mpr
        ⟨vm.frameTable[f], List.getElem?_eq_getElem hlt,
         hall _ (List.getElem_mem hlt)⟩
  have hcard : vm.pageTable.length ≤ residentCount vm := by
    have h1 : occupiedCount vm = vm.frameTable.length := by
      unfold occupiedCount
      rw [hocc, Finset.card_range]
    have h2 : vm.frameTable.length = vm.pageTable.length := by
      rw [h.ftLen, h.ptLen, h.framesEqPages]
    have := occupied_le_resident h
    omega
  have hres : residentSet vm = Finset.range vm.pageTable.length := by
    apply Finset.eq_of_subset_of_card_le
    · exact Finset.filter_subset _ _
    · rw [Finset.card_range]
      exact hcard
  intro p hp
  have : p ∈ residentSet vm := by
    rw [hres]
    exact Finset.mem_range.mpr hp
  exact mem_residentSet.mp this

lemma fault_free_exists {vm : VirtualMemoryManager} {p : Nat} {e : PageTableEntry}
    (h : EngineInv vm) (he : vm.pageTable[p]? = some e) (hv : e.valid = false) :
    findFreeFrame vm.frameTable 0 ≠ -1 := by
  intro hnf
  rcases no_free_all_valid h hnf p (lt_length_of_getElem?_some he) with ⟨e', he', hval⟩
  rw [he] at he'
  injection he' with h'
  subst h'
  rw [hv] at hval
  cases hval

/-! Projection lemmas for `updateLRU`. -/

lemma updateLRU_pageTable (vm : VirtualMemoryManager) (p : Nat) :
    (updateLRU vm p).pageTable = vm.pageTable := by
  unfold updateLRU; split <;> rfl

lemma updateLRU_frameTable (vm : VirtualMemoryManager) (p : Nat) :
    (updateLRU vm p).frameTable = vm.frameTable := by
  unfold updateLRU; split <;> rfl

lemma updateLRU_segments (vm : VirtualMemoryManager) (p : Nat) :
    (updateLRU vm p).segments = vm.segments := by
  unfold updateLRU; split <;> rfl

lemma updateLRU_pageSize (vm : VirtualMemoryManager) (p : Nat) :
    (updateLRU vm p).pageSize = vm.pageSize := by
  unfold updateLRU; split <;> rfl

lemma updateLRU_numPages (vm : VirtualMemoryManager) (p : Nat) :
    (updateLRU vm p).numPages = vm.numPages := by
  unfold updateLRU; split <;> rfl

lemma updateLRU_numFrames (vm : VirtualMemoryManager) (p : Nat) :
    (updateLRU vm p).numFrames = vm.numFrames := by
  unfold updateLRU; split <;> rfl

lemma updateLRU_policy (vm : VirtualMemoryManager) (p : Nat) :
    (updateLRU vm p).policy = vm.policy := by
  unfold updateLRU; split <;> rfl

lemma updateLRU_fifoQueue (vm : VirtualMemoryManager) (p : Nat) :
    (updateLRU vm p).fifoQueue = vm.fifoQueue := by
  unfold updateLRU; split <;> rfl

lemma updateLRU_accesses (vm : VirtualMemoryManager) (p : Nat) :
    (updateLRU vm p).accesses = vm.accesses := by
  unfold updateLRU; split <;> rfl

lemma updateLRU_pageFaults (vm : VirtualMemoryManager) (p : Nat) :
    (updateLRU vm p).pageFaults = vm.pageFaults := by
  unfold updateLRU; split <;> rfl

lemma updateLRU_lruList_of_mem {vm : VirtualMemoryManager} {p : Nat}
    (h : p ∈ vm.lruList) :
    (updateLRU vm p).lruList = p :: vm.lruList.erase p := by
  unfold updateLRU
  rw [if_pos h]

/-- On a state satisfying the invariant, a fault on a non-resident page always
finds a free frame, so the eviction branch of `handlePageFault` is skipped and
the result is the plain load of the page into the first free frame. -/
lemma handlePageFault_spec {vm : VirtualMemoryManager} {p : Nat} {e : PageTableEntry}
    (h : EngineInv vm) (he : vm.pageTable[p]? = some e) (hv : e.valid = false) :
    ∃ f : Nat, findFreeFrame vm.frameTable 0 = Int.ofNat f ∧
      vm.frameTable[f]? = some (-1) ∧
      handlePageFault vm p = some (faultLoad vm p f) := by
  have hne := fault_free_exists h he hv
  rcases findFreeFrame_found _ 0 hne with ⟨j, hj, hjget⟩
  rw [Nat.zero_add] at hj
  have hjlt : j < vm.frameTable.length := lt_length_of_getElem?_some hjget
  have hplt : p < vm.pageTable.length := lt_length_of_getElem?_some he
  refine ⟨j, hj, hjget, ?_⟩
  have hcond : 0 ≤ Int.ofNat j ∧ (Int.ofNat j).toNat < vm.frameTable.length :=
    ⟨Int.ofNat_nonneg j, by rw [toNat_ofNat_eq]; exact hjlt⟩
  simp only [handlePageFault, hj, if_neg (ofNat_ne_neg_one j), setPTE, if_pos hplt,
    setFrameI, if_pos hcond, toNat_ofNat_eq]
  cases hpol : vm.policy with
  | FIFO => simp [faultLoad, hpol, hjlt]
  | LRU => simp [faultLoad, hpol, hjlt, addLRU]

/-- Core invariant preservation for the load step: writing the page table
entry and the frame table slot and inserting the page into the tracker (at
the tail for FIFO, at the front for LRU) preserves the invariant. -/
lemma inv_load {vm vmL : VirtualMemoryManager} {p f : Nat} {e : PageTableEntry}
    (h : EngineInv vm) (he : vm.pageTable[p]? = some e) (hv : e.valid = false)
    (hf : vm.frameTable[f]? = some (-1))
    (hpt : vmL.pageTable = vm.pageTable.set p { frameNumber := Int.ofNat f, valid := true })
    (hft : vmL.frameTable = vm.frameTable.set f (Int.ofNat p))
    (hseg : vmL.segments = vm.segments) (hps : vmL.pageSize = vm.pageSize)
    (hnp : vmL.numPages = vm.numPages) (hnf : vmL.numFrames = vm.numFrames)
    (htr : tracker vmL = tracker vm ++ [p] ∨ tracker vmL = p :: tracker vm) :
    EngineInv vmL := by
  have hplt : p < vm.pageTable.length := lt_length_of_getElem?_some he
  have hflt : f < vm.frameTable.length := lt_length_of_getElem?_some hf
  have hpnot : p ∉ tracker vm := by
    intro hp
    rcases (h.trackMem p).mp hp with ⟨e2, he2, hval2⟩
    rw [he] at he2
    injection he2 with hee
    rw [← hee, hv] at hval2
    cases hval2
  have hmemL : ∀ q, q ∈ tracker vmL ↔ q = p ∨ q ∈ tracker vm := by
    intro q
    rcases htr with h1 | h1 <;> rw [h1]
    · rw [List.mem_append, List.mem_singleton]
      tauto
    · rw [List.mem_cons]
  have hndL : (tracker vmL).Nodup := by
    rcases htr with h1 | h1 <;> rw [h1]
    · rw [List.nodup_append]
      refine ⟨h.trackNodup, List.nodup_singleton p, ?_⟩
      intro a ha hb
      rw [List.mem_singleton] at hb
      subst hb
      exact hpnot ha
    · exact List.Nodup.cons hpnot h.trackNodup
  refine ⟨?_, ?_, ?_, ?_, ?_, ?_, hndL, ?_⟩
  · rw [hpt, List.length_set, hnp]
    exact h.ptLen
  · rw [hft, List.length_set, hnf]
    exact h.ftLen
  · rw [hnf, hnp]
    exact h.framesEqPages
  · rw [hseg, hnp, hps]
    exact h.segBound
  · -- pageFrame
    intro p2 e2 he2 hval2
    rw [hpt] at he2
    rw [hft]
    by_cases hpp : p = p2
    · subst hpp
      rw [List.getElem?_set_self hplt] at he2
      injection he2 with hee
      subst hee
      exact ⟨f, rfl, by rw [List.getElem?_set_self hflt]⟩
    · rw [List.getElem?_set_ne hpp] at he2
      rcases h.pageFrame p2 e2 he2 hval2 with ⟨f2, hfr2, hft2⟩
      have hff : f ≠ f2 := by
        intro heq
        rw [← heq, hf] at hft2
        injection hft2 with habs
        exact ofNat_ne_neg_one p2 habs.symm
      exact ⟨f2, hfr2, by rw [List.getElem?_set_ne hff]; exact hft2⟩
  · -- framePage
    intro f2 v hv2 hne2
    rw [hft] at hv2
    rw [hpt]
    by_cases hff : f = f2
    · subst hff
      rw [List.getElem?_set_self hflt] at hv2
      injection hv2 with hvv
      subst hvv
      exact ⟨p, { frameNumber := Int.ofNat f, valid := true }, rfl,
        by rw [List.getElem?_set_self hplt], rfl, rfl⟩
    · rw [List.getElem?_set_ne hff] at hv2
      rcases h.framePage f2 v hv2 hne2 with ⟨p2, e2, rfl, hpe2, hval2, hfr2⟩
      have hpp : p ≠ p2 := by
        intro heq
        rw [← heq, he] at hpe2
        injection hpe2 with hee
        rw [← hee, hv] at hval2
        cases hval2
      exact ⟨p2, e2, rfl, by rw [List.getElem?_set_ne hpp]; exact hpe2, hval2, hfr2⟩
  · -- trackMem
    intro q
    rw [hmemL q, hpt]
    constructor
    · rintro (rfl | hq2)
      · exact ⟨{ frameNumber := Int.ofNat f, valid := true },
          by rw [List.getElem?_set_self hplt], rfl⟩
      · rcases (h.trackMem q).mp hq2 with ⟨e2, he2, hval2⟩
        have hqp : p ≠ q := by
          intro heq
          subst heq
          exact hpnot hq2
        exact ⟨e2, by rw [List.getElem?_set_ne hqp]; exact he2, hval2⟩
    · rintro ⟨e2, he2, hval2⟩
      by_cases hqp : p = q
      · left
        exact hqp.symm
      · right
        rw [List.getElem?_set_ne hqp] at he2
        exact (h.trackMem q).mpr ⟨e2, he2, hval2⟩

/-- `updateLRU` preserves the invariant. -/
lemma inv_updateLRU {vm : VirtualMemoryManager} (h : EngineInv vm) (p : Nat) :
    EngineInv (updateLRU vm p) := by
  by_cases hmem : p ∈ vm.lruList
  · unfold updateLRU
    rw [if_pos hmem]
    refine ⟨by simpa using h.ptLen, by simpa using h.ftLen, h.framesEqPages,
      by simpa using h.segBound, by simpa using h.pageFrame,
      by simpa using h.framePage, ?_, ?_⟩
    · cases hpol : vm.policy with
      | FIFO =>
        show vm.fifoQueue.Nodup
        have hq : tracker vm = vm.fifoQueue := by unfold tracker; rw [hpol]
        rw [← hq]
        exact h.trackNodup
      | LRU =>
        show (p :: vm.lruList.erase p).Nodup
        have hq : tracker vm = vm.lruList := by unfold tracker; rw [hpol]
        have hnd := h.trackNodup
        rw [hq] at hnd
        refine List.Nodup.cons ?_ (List.Nodup.erase p hnd)
        intro habs
        exact absurd ((List.Nodup.mem_erase_iff hnd).mp habs).1 (by simp)
    · intro q
      cases hpol : vm.policy with
      | FIFO =>
        show q ∈ vm.fifoQueue ↔ ∃ e, vm.pageTable[q]? = some e ∧ e.valid = true
        have hq : tracker vm = vm.fifoQueue := by unfold tracker; rw [hpol]
        rw [← hq]
        exact h.trackMem q
      | LRU =>
        show q ∈ p :: vm.lruList.erase p ↔ ∃ e, vm.pageTable[q]? = some e ∧ e.valid = true
        have hq : tracker vm = vm.lruList := by unfold tracker; rw [hpol]
        have hnd := h.trackNodup
        rw [hq] at hnd
        have hmm := h.trackMem q
        rw [hq] at hmm
        rw [List.mem_cons]
        rw [← hmm]
        constructor
        · rintro (rfl | hq2)
          · exact hmem
          · exact ((List.Nodup.mem_erase_iff hnd).mp hq2).2
        · intro hql
          by_cases hqp : q = p
          · left
            exact hqp
          · right
            exact (List.Nodup.mem_erase_iff hnd).mpr ⟨hqp, hql⟩
  · unfold updateLRU
    rw [if_neg hmem]
    exact h

lemma intToSizeT_ofNat (n : Nat) : intToSizeT (Int.ofNat n) = n := by
  have h0 : (0 : Int) ≤ Int.ofNat n := Int.ofNat_nonneg n
  unfold intToSizeT
  rw [if_pos h0]
  rfl

lemma intToSizeT_coe (n : Nat) : intToSizeT (n : Int) = n :=
  intToSizeT_ofNat n

/-- `finishAccess` under the FIFO policy: no LRU bookkeeping, state returned
unchanged together with the translation result. -/
lemma finishAccess_fifo {vm : VirtualMemoryManager}
    (hpol : vm.policy = ReplacementPolicy.FIFO)
    {pn : Nat} {e2 : PageTableEntry} (he2 : vm.pageTable[pn]? = some e2)
    (la po : Nat) (fl : Bool) :
    finishAccess vm la pn po fl =
      some (vm, AccessResult.ok la (intToSizeT e2.frameNumber * vm.pageSize + po)
        e2.frameNumber po fl) := by
  simp only [finishAccess, hpol]
  rw [if_neg (by intro h; cases h)]
  rw [he2]

/-- `finishAccess` under the LRU policy: the page is moved to the front of the
recency list, then the translation result is computed. -/
lemma finishAccess_lru {vm : VirtualMemoryManager}
    (hpol : vm.policy = ReplacementPolicy.LRU)
    {pn : Nat} {e2 : PageTableEntry} (he2 : vm.pageTable[pn]? = some e2)
    (la po : Nat) (fl : Bool) :
    finishAccess vm la pn po fl =
      some (updateLRU vm pn, AccessResult.ok la
        (intToSizeT e2.frameNumber * vm.pageSize + po) e2.frameNumber po fl) := by
  simp only [finishAccess, hpol, if_true]
  rw [updateLRU_pageTable, he2, updateLRU_pageSize]

lemma inv_counters {vm : VirtualMemoryManager} (h : EngineInv vm) (a b : Nat) :
    EngineInv { vm with accesses := a, pageFaults := b } :=
  EngineInv.of_fields h rfl rfl rfl rfl rfl rfl rfl rfl rfl

/-- Full characterization of `accessAddress` on valid arguments, on a state
satisfying the invariant: the call succeeds, returns the physical address
`f * pageSize + logicalAddr % pageSize` where `f` is the frame backing the
page after the call, bumps the two counters exactly as the source does, and
leaves the configuration fields unchanged. -/
theorem access_valid_spec {vm : VirtualMemoryManager} {s o : Nat} {seg : Segment}
    {e : PageTableEntry}
    (hInv : EngineInv vm)
    (hs : vm.segments[s]? = some seg) (ho : o < seg.limit)
    (he : vm.pageTable[(seg.base + o) / vm.pageSize]? = some e) :
    ∃ (vm' : VirtualMemoryManager) (f : Nat),
      accessAddress vm s o = some (vm',
        AccessResult.ok (seg.base + o)
          (f * vm.pageSize + (seg.base + o) % vm.pageSize)
          (Int.ofNat f)
          ((seg.base + o) % vm.pageSize)
          (!e.valid)) ∧
      EngineInv vm' ∧
      vm'.pageTable[(seg.base + o) / vm.pageSize]? =
        some { frameNumber := Int.ofNat f, valid := true } ∧
      vm'.frameTable[f]? = some (Int.ofNat ((seg.base + o) / vm.pageSize)) ∧
      vm'.accesses = vm.accesses + 1 ∧
      vm'.pageFaults = vm.pageFaults + (if e.valid then 0 else 1) ∧
      vm'.segments = vm.segments ∧
      vm'.pageSize = vm.pageSize ∧
      vm'.numPages = vm.numPages ∧
      vm'.numFrames = vm.numFrames ∧
      vm'.policy = vm.policy ∧
      (e.valid = true → e.frameNumber = Int.ofNat f ∧
        vm'.pageTable = vm.pageTable ∧ vm'.frameTable = vm.frameTable ∧
        vm'.fifoQueue = vm.fifoQueue) ∧
      (e.valid = false → findFreeFrame vm.frameTable 0 = Int.ofNat f ∧
        (vm.policy = ReplacementPolicy.FIFO →
          vm'.fifoQueue = vm.fifoQueue ++ [(seg.base + o) / vm.pageSize]) ∧
        (vm.policy = ReplacementPolicy.LRU →
          vm'.lruList = (seg.base + o) / vm.pageSize :: vm.lruList)) ∧
      (vm.policy = ReplacementPolicy.LRU →
        vm'.lruList.head? = some ((seg.base + o) / vm.pageSize)) := by
  obtain ⟨efn, ev⟩ := e
  have hno : ¬seg.limit ≤ o := Nat.not_le.mpr ho
  have hplt : (seg.base + o) / vm.pageSize < vm.pageTable.length :=
    lt_length_of_getElem?_some he
  cases ev with
  | true =>
    -- hit path
    have hred : accessAddress vm s o =
        finishAccess { vm with accesses := vm.accesses + 1 } (seg.base + o)
          ((seg.base + o) / vm.pageSize) ((seg.base + o) % vm.pageSize) false := by
      simp only [accessAddress, hs, if_neg hno]
      rw [show ({ vm with accesses := vm.accesses + 1 } :
        VirtualMemoryManager).pageTable[(seg.base + o) / vm.pageSize]? =
        some ⟨efn, true⟩ from he]
      rfl
    have hA : EngineInv { vm with accesses := vm.accesses + 1 } :=
      EngineInv.of_fields hInv rfl rfl rfl rfl rfl rfl rfl rfl rfl
    rcases hInv.pageFrame _ _ he rfl with ⟨f, hfr, hfp⟩
    have hfr2 : efn = Int.ofNat f := hfr
    subst hfr2
    cases hpol : vm.policy with
    | FIFO =>
      have hpolA : ({ vm with accesses := vm.accesses + 1 } :
          VirtualMemoryManager).policy = ReplacementPolicy.FIFO := hpol
      have heA : ({ vm with accesses := vm.accesses + 1 } :
          VirtualMemoryManager).pageTable[(seg.base + o) / vm.pageSize]? =
          some ⟨Int.ofNat f, true⟩ := he
      refine ⟨{ vm with accesses := vm.accesses + 1 }, f,
        ?_, ?_, ?_, ?_, ?_, ?_, ?_, ?_, ?_, ?_, ?_, ?_, ?_, ?_⟩
      · rw [hred, finishAccess_fifo hpolA heA]
        simp [intToSizeT_ofNat, intToSizeT_coe]
      · exact hA
      · exact he
      · exact hfp
      · rfl
      · simp
      · rfl
      · rfl
      · rfl
      · rfl
      · exact hpol
      · intro _
        exact ⟨rfl, rfl, rfl, rfl⟩
      · intro habs
        simp at habs
      · intro habs
        simp at habs
    | LRU =>
      have hpolA : ({ vm with accesses := vm.accesses + 1 } :
          VirtualMemoryManager).policy = ReplacementPolicy.LRU := hpol
      have heA : ({ vm with accesses := vm.accesses + 1 } :
          VirtualMemoryManager).pageTable[(seg.base + o) / vm.pageSize]? =
          some ⟨Int.ofNat f, true⟩ := he
      have hm : (seg.base + o) / vm.pageSize ∈
          ({ vm with accesses := vm.accesses + 1 } :
            VirtualMemoryManager).lruList := by
        have hmem := (hInv.trackMem ((seg.base + o) / vm.pageSize)).mpr
          ⟨⟨Int.ofNat f, true⟩, he, rfl⟩
        unfold tracker at hmem
        rw [hpol] at hmem
        exact hmem
      refine ⟨updateLRU { vm with accesses := vm.accesses + 1 }
          ((seg.base + o) / vm.pageSize), f,
        ?_, ?_, ?_, ?_, ?_, ?_, ?_, ?_, ?_, ?_, ?_, ?_, ?_, ?_⟩
      · rw [hred, finishAccess_lru hpolA heA]
        simp [intToSizeT_ofNat, intToSizeT_coe]
      · exact inv_updateLRU hA _
      · rw [updateLRU_pageTable]
        exact he
      · rw [updateLRU_frameTable]
        exact hfp
      · rw [updateLRU_accesses]
      · rw [updateLRU_pageFaults]
        simp
      · rw [updateLRU_segments]
      · rw [updateLRU_pageSize]
      · rw [updateLRU_numPages]
      · rw [updateLRU_numFrames]
      · rw [updateLRU_policy]
        exact hpol
      · intro _
        exact ⟨rfl, by rw [updateLRU_pageTable], by rw [updateLRU_frameTable],
          by rw [updateLRU_fifoQueue]⟩
      · intro habs
        simp at habs
      · intro _
        rw [updateLRU_lruList_of_mem hm]
        rfl
  | false =>
    -- fault path
    have hP :
        EngineInv { vm with accesses := vm.accesses + 1, pageFaults := vm.pageFaults + 1 } :=
      inv_counters hInv (vm.accesses + 1) (vm.pageFaults + 1)
    have heP : ({ vm with accesses := vm.accesses + 1, pageFaults := vm.pageFaults + 1 } :
        VirtualMemoryManager).pageTable[(seg.base + o) / vm.pageSize]? =
        some ⟨efn, false⟩ := he
    rcases handlePageFault_spec hP heP rfl with ⟨f, hfind, hfree, hPF⟩
    have hfind2 : findFreeFrame vm.frameTable 0 = Int.ofNat f := hfind
    have hfree2 : vm.frameTable[f]? = some (-1) := hfree
    have hflt : f < vm.frameTable.length := lt_length_of_getElem?_some hfree2
    have hred : accessAddress vm s o =
        finishAccess
          (faultLoad { vm with accesses := vm.accesses + 1, pageFaults := vm.pageFaults + 1 }
            ((seg.base + o) / vm.pageSize) f)
          (seg.base + o) ((seg.base + o) / vm.pageSize)
          ((seg.base + o) % vm.pageSize) true := by
      simp only [accessAddress, hs, if_neg hno]
      rw [show ({ vm with accesses := vm.accesses + 1 } :
        VirtualMemoryManager).pageTable[(seg.base + o) / vm.pageSize]? =
        some ⟨efn, false⟩ from he]
      rw [hPF]
      rfl
    have hInvF : EngineInv
        (faultLoad { vm with accesses := vm.accesses + 1, pageFaults := vm.pageFaults + 1 }
          ((seg.base + o) / vm.pageSize) f) := by
      refine inv_load hInv he rfl hfree2 rfl rfl rfl rfl rfl rfl ?_
      cases hpol : vm.policy with
      | FIFO =>
        left
        simp [faultLoad, tracker, hpol]
      | LRU =>
        right
        simp [faultLoad, tracker, hpol]
    have hpolF :
        (faultLoad { vm with accesses := vm.accesses + 1, pageFaults := vm.pageFaults + 1 }
          ((seg.base + o) / vm.pageSize) f).policy = vm.policy := rfl
    have heF :
        (faultLoad { vm with accesses := vm.accesses + 1, pageFaults := vm.pageFaults + 1 }
          ((seg.base + o) / vm.pageSize) f).pageTable[(seg.base + o) / vm.pageSize]? =
        some { frameNumber := Int.ofNat f, valid := true } :=
      List.getElem?_set_self hplt
    cases hpol : vm.policy with
    | FIFO =>
      refine ⟨faultLoad { vm with accesses := vm.accesses + 1, pageFaults := vm.pageFaults + 1 }
          ((seg.base + o) / vm.pageSize) f, f,
        ?_, ?_, ?_, ?_, ?_, ?_, ?_, ?_, ?_, ?_, ?_, ?_, ?_, ?_⟩
      · rw [hred, finishAccess_fifo (hpolF.trans hpol) heF]
        simp [intToSizeT_ofNat, intToSizeT_coe, faultLoad]
      · exact hInvF
      · exact heF
      · exact List.getElem?_set_self hflt
      · simp [faultLoad]
      · simp [faultLoad]
      · simp [faultLoad]
      · simp [faultLoad]
      · simp [faultLoad]
      · simp [faultLoad]
      · exact hpol
      · intro habs
        simp at habs
      · intro _
        exact ⟨hfind2, fun _ => by simp [faultLoad, hpol], fun habs => by simp at habs⟩
      · intro habs
        simp at habs
    | LRU =>
      have hmF : (seg.base + o) / vm.pageSize ∈
          (faultLoad { vm with accesses := vm.accesses + 1, pageFaults := vm.pageFaults + 1 }
            ((seg.base + o) / vm.pageSize) f).lruList := by
        simp [faultLoad, hpol]
      refine ⟨updateLRU
          (faultLoad { vm with accesses := vm.accesses + 1, pageFaults := vm.pageFaults + 1 }
            ((seg.base + o) / vm.pageSize) f)
          ((seg.base + o) / vm.pageSize), f,
        ?_, ?_, ?_, ?_, ?_, ?_, ?_, ?_, ?_, ?_, ?_, ?_, ?_, ?_⟩
      · rw [hred, finishAccess_lru (hpolF.trans hpol) heF]
        simp [intToSizeT_ofNat, intToSizeT_coe, faultLoad]
      · exact inv_updateLRU hInvF _
      · rw [updateLRU_pageTable]
        exact heF
      · rw [updateLRU_frameTable]
        exact List.getElem?_set_self hflt
      · simp [updateLRU_accesses, faultLoad]
      · simp [updateLRU_pageFaults, faultLoad]
      · simp [updateLRU_segments, faultLoad]
      · simp [updateLRU_pageSize, faultLoad]
      · simp [updateLRU_numPages, faultLoad]
      · simp [updateLRU_numFrames, faultLoad]
      · rw [updateLRU_policy]
        exact hpol
      · intro habs
        simp at habs
      · intro _
        refine ⟨hfind2, fun habs => by simp at habs, fun _ => ?_⟩
        rw [updateLRU_lruList_of_mem hmF]
        simp [faultLoad, hpol, List.erase_cons_head]
      · intro _
        rw [updateLRU_lruList_of_mem hmF]
        rfl

/-- Rejection with an invalid segment index: state returned unchanged. -/
lemma access_invalid_segment {vm : VirtualMemoryManager} {s o : Nat}
    (hs : vm.segments[s]? = none) :
    accessAddress vm s o = some (vm, AccessResult.invalidSegment) := by
  simp only [accessAddress, hs]

/-- Rejection with an out-of-bounds offset: state returned unchanged. -/
lemma access_offset_oob {vm : VirtualMemoryManager} {s o : Nat} {seg : Segment}
    (hs : vm.segments[s]? = some seg) (hlim : seg.limit ≤ o) :
    accessAddress vm s o = some (vm, AccessResult.offsetOutOfBounds) := by
  simp only [accessAddress, hs, if_pos hlim]

/-- A valid request whose page number indexes past the end of the page table
is undefined behaviour (`pageTable[pageNum]` out of range). -/
lemma access_pt_oob {vm : VirtualMemoryManager} {s o : Nat} {seg : Segment}
    (hs : vm.segments[s]? = some seg) (hlim : ¬seg.limit ≤ o)
    (hpt : vm.pageTable[(seg.base + o) / vm.pageSize]? = none) :
    accessAddress vm s o = none := by
  simp only [accessAddress, hs, if_neg hlim]
  rw [show ({ vm with accesses := vm.accesses + 1 } :
    VirtualMemoryManager).pageTable[(seg.base + o) / vm.pageSize]? = none from hpt]

/-- The invariant at construction, for any page size dividing the memory
size (the configuration contract of the engine). -/
lemma inv_mk (m ps : Nat) (names : List String) (pol : ReplacementPolicy)
    (hdvd : ps ∣ m) : EngineInv (mkVMM m ps names pol) := by
  refine ⟨by simp [mkVMM], by simp [mkVMM], rfl, ?_, ?_, ?_, ?_, ?_⟩
  · -- segBound
    intro seg hseg
    simp only [mkVMM, List.mem_map, List.mem_range] at hseg
    rcases hseg with ⟨i, hi, rfl⟩
    show i * (m / names.length) + m / names.length ≤ m / ps * ps
    rw [Nat.div_mul_cancel hdvd]
    calc i * (m / names.length) + m / names.length
        = (i + 1) * (m / names.length) := by ring
      _ ≤ names.length * (m / names.length) := Nat.mul_le_mul_right _ hi
      _ = m / names.length * names.length := Nat.mul_comm _ _
      _ ≤ m := Nat.div_mul_le_self m names.length
  · -- pageFrame
    intro p e he hval
    rw [show (mkVMM m ps names pol).pageTable =
      List.replicate (m / ps) { frameNumber := -1, valid := false } from rfl,
      List.getElem?_replicate] at he
    by_cases hp : p < m / ps
    · rw [if_pos hp] at he
      injection he with hee
      rw [← hee] at hval
      cases hval
    · rw [if_neg hp] at he
      cases he
  · -- framePage
    intro f v hv hne
    rw [show (mkVMM m ps names pol).frameTable =
      List.replicate (m / ps) (-1 : Int) from rfl, List.getElem?_replicate] at hv
    by_cases hf : f < m / ps
    · rw [if_pos hf] at hv
      injection hv with hvv
      exact absurd hvv.symm hne
    · rw [if_neg hf] at hv
      cases hv
  · -- trackNodup
    cases pol <;> exact List.nodup_nil
  · -- trackMem
    intro p
    constructor
    · intro hp
      cases pol <;> cases hp
    · rintro ⟨e, he, hval⟩
      rw [show (mkVMM m ps names pol).pageTable =
        List.replicate (m / ps) { frameNumber := -1, valid := false } from rfl,
        List.getElem?_replicate] at he
      by_cases hp : p < m / ps
      · rw [if_pos hp] at he
        injection he with hee
        rw [← hee] at hval
        cases hval
      · rw [if_neg hp] at he
        cases he

/-- One successful `accessAddress` step preserves the invariant and never
changes the configuration fields. -/
lemma inv_access {vm vm' : VirtualMemoryManager} {s o : Nat} {r : AccessResult}
    (hInv : EngineInv vm) (hstep : accessAddress vm s o = some (vm', r)) :
    EngineInv vm' ∧ vm'.segments = vm.segments ∧ vm'.pageSize = vm.pageSize ∧
    vm'.numPages = vm.numPages ∧ vm'.numFrames = vm.numFrames ∧
    vm'.policy = vm.policy := by
  cases hseg : vm.segments[s]? with
  | none =>
    rw [access_invalid_segment hseg] at hstep
    injection hstep with hp
    injection hp with h1 _
    rw [← h1]
    exact ⟨hInv, rfl, rfl, rfl, rfl, rfl⟩
  | some seg =>
    by_cases hlim : seg.limit ≤ o
    · rw [access_offset_oob hseg hlim] at hstep
      injection hstep with hp
      injection hp with h1 _
      rw [← h1]
      exact ⟨hInv, rfl, rfl, rfl, rfl, rfl⟩
    · cases hpt : vm.pageTable[(seg.base + o) / vm.pageSize]? with
      | none =>
        rw [access_pt_oob hseg hlim hpt] at hstep
        cases hstep
      | some e =>
        rcases access_valid_spec hInv hseg (Nat.not_le.mp hlim) hpt with
          ⟨vm2, f, heq, hI, _, _, _, _, hsegs, hps, hnp, hnf, hpol, _⟩
        rw [heq] at hstep
        injection hstep with hp
        injection hp with h1 _
        rw [← h1]
        exact ⟨hI, hsegs, hps, hnp, hnf, hpol⟩

/-- Every state reachable from a well-configured construction satisfies the
invariant and keeps the configuration of the construction. -/
lemma reachable_inv {m ps : Nat} {names : List String} {pol : ReplacementPolicy}
    {vm : VirtualMemoryManager} (hdvd : ps ∣ m)
    (h : Reachable (mkVMM m ps names pol) vm) :
    EngineInv vm ∧ vm.segments = (mkVMM m ps names pol).segments ∧
    vm.pageSize = ps ∧ vm.numPages = m / ps ∧ vm.numFrames = m / ps ∧
    vm.policy = pol := by
  induction h with
  | refl => exact ⟨inv_mk m ps names pol hdvd, rfl, rfl, rfl, rfl, rfl⟩
  | step hr hstep ih =>
    rcases ih with ⟨hI, hsegs, hps, hnp, hnf, hpol⟩
    rcases inv_access hI hstep with ⟨hI2, hsegs2, hps2, hnp2, hnf2, hpol2⟩
    exact ⟨hI2, hsegs2.trans hsegs, hps2.trans hps, hnp2.trans hnp,
      hnf2.trans hnf, hpol2.trans hpol⟩

/-- For a valid request on an invariant state, the page number is in range and
the page table lookup succeeds. -/
lemma valid_request_entry {vm : VirtualMemoryManager} {s o : Nat} {seg : Segment}
    (hInv : EngineInv vm) (hs : vm.segments[s]? = some seg) (ho : o < seg.limit) :
    ∃ e, vm.pageTable[(seg.base + o) / vm.pageSize]? = some e ∧
      (seg.base + o) / vm.pageSize < vm.numPages := by
  have hmem : seg ∈ vm.segments := mem_of_getElem?_some hs
  have hb := hInv.segBound seg hmem
  have hlt : seg.base + o < vm.pageSize * vm.numPages := by
    rw [Nat.mul_comm]
    omega
  have hpn : (seg.base + o) / vm.pageSize < vm.numPages := Nat.div_lt_of_lt_mul hlt
  have hpn2 : (seg.base + o) / vm.pageSize < vm.pageTable.length := by
    rw [hInv.ptLen]
    exact hpn
  exact ⟨vm.pageTable[(seg.base + o) / vm.pageSize], List.getElem?_eq_getElem hpn2, hpn⟩

lemma resident_le_occupied {vm : VirtualMemoryManager} (h : EngineInv vm) :
    residentCount vm ≤ occupiedCount vm := by
  unfold residentCount occupiedCount
  refine Finset.card_le_card_of_injOn
    (fun p => (vm.pageTable.getD p { frameNumber := -1, valid := false }).frameNumber.toNat)
    ?_ ?_
  · intro p hp
    rcases mem_residentSet.mp hp with ⟨e, he, hval⟩
    rcases h.pageFrame p e he hval with ⟨f, hfr, hft⟩
    show (vm.pageTable.getD p { frameNumber := -1, valid := false }).frameNumber.toNat ∈
      occupiedSet vm
    rw [List.getD_eq_getElem?_getD, he, Option.getD_some, hfr]
    have htn : (Int.ofNat f).toNat = f := rfl
    rw [htn]
    exact mem_occupiedSet.mpr ⟨Int.ofNat p, hft, ofNat_ne_neg_one p⟩
  · intro p1 hp1 p2 hp2 heq
    simp only [Finset.mem_coe] at hp1 hp2
    rcases mem_residentSet.mp hp1 with ⟨e1, he1, hval1⟩
    rcases mem_residentSet.mp hp2 with ⟨e2, he2, hval2⟩
    rcases h.pageFrame p1 e1 he1 hval1 with ⟨f1, hfr1, hft1⟩
    rcases h.pageFrame p2 e2 he2 hval2 with ⟨f2, hfr2, hft2⟩
    simp only [List.getD_eq_getElem?_getD, he1, he2, Option.getD_some, hfr1, hfr2] at heq
    have hf : f1 = f2 := by
      have h1 : (Int.ofNat f1).toNat = f1 := rfl
      have h2 : (Int.ofNat f2).toNat = f2 := rfl
      rw [h1, h2] at heq
      exact heq
    subst hf
    rw [hft1] at hft2
    injection hft2 with hv
    exact Int.ofNat.inj hv

lemma resident_eq_occupied {vm : VirtualMemoryManager} (h : EngineInv vm) :
    residentCount vm = occupiedCount vm :=
  Nat.le_antisymm (resident_le_occupied h) (occupied_le_resident h)

lemma tracker_length_eq_resident {vm : VirtualMemoryManager} (h : EngineInv vm) :
    (tracker vm).length = residentCount vm := by
  have hfin : (tracker vm).toFinset = residentSet vm := by
    ext q
    rw [List.mem_toFinset, h.trackMem q, mem_residentSet]
  rw [← List.toFinset_card_of_nodup h.trackNodup, hfin]
  rfl

lemma occupied_add_free {vm : VirtualMemoryManager} :
    occupiedCount vm + freeFrameCount vm = vm.frameTable.length := by
  have key : (Finset.filter (fun f => vm.frameTable.getD f (-1) ≠ -1)
        (Finset.range vm.frameTable.length)).card +
      (Finset.filter (fun f => ¬vm.frameTable.getD f (-1) ≠ -1)
        (Finset.range vm.frameTable.length)).card =
      (Finset.range vm.frameTable.length).card :=
    Finset.filter_card_add_filter_neg_card_eq_card _
  rw [Finset.card_range] at key
  have h2 : Finset.filter (fun f => ¬vm.frameTable.getD f (-1) ≠ -1)
      (Finset.range vm.frameTable.length) =
      Finset.filter (fun f => vm.frameTable.getD f (-1) = -1)
      (Finset.range vm.frameTable.length) := by
    apply Finset.filter_congr
    intro f _
    simp [not_not]
  calc occupiedCount vm + freeFrameCount vm
      = (Finset.filter (fun f => vm.frameTable.getD f (-1) ≠ -1)
          (Finset.range vm.frameTable.length)).card
        + (Finset.filter (fun f => ¬vm.frameTable.getD f (-1) ≠ -1)
          (Finset.range vm.frameTable.length)).card := by
        unfold occupiedCount freeFrameCount occupiedSet
        rw [h2]
    _ = vm.frameTable.length := key

/-- Claim C1: for every reachable engine state and every accepted request
(`segIdx` in range, `offset < limit`), `accessAddress` returns a physical
address equal to `frame * pageSize + logicalAddress % pageSize`, where
`logicalAddress = segment.base + offset` and `frame` is the unique frame that
the page table maps `pageNumber = logicalAddress / pageSize` to after the call
(loading it through the fault handler first when it was not resident). -/
theorem accessAddress_translation_correct
    (m ps : Nat) (names : List String) (pol : ReplacementPolicy)
    (hps : 0 < ps) (hdvd : ps ∣ m)
    (vm : VirtualMemoryManager) (hreach : Reachable (mkVMM m ps names pol) vm)
    (s o : Nat) (seg : Segment) (hs : vm.segments[s]? = some seg)
    (ho : o < seg.limit) :
    ∃ (vm' : VirtualMemoryManager) (f pa po : Nat) (fl : Bool),
      accessAddress vm s o = some (vm',
        AccessResult.ok (seg.base + o) pa (Int.ofNat f) po fl) ∧
      pa = f * vm.pageSize + (seg.base + o) % vm.pageSize ∧
      po = (seg.base + o) % vm.pageSize ∧
      vm'.pageTable[(seg.base + o) / vm.pageSize]? =
        some { frameNumber := Int.ofNat f, valid := true } ∧
      vm'.frameTable[f]? = some (Int.ofNat ((seg.base + o) / vm.pageSize)) ∧
      (∀ f2 : Nat,
        vm'.frameTable[f2]? = some (Int.ofNat ((seg.base + o) / vm.pageSize)) →
        f2 = f) := by
  obtain ⟨hInv, -, -, -, -, -⟩ := reachable_inv hdvd hreach
  obtain ⟨e, he, -⟩ := valid_request_entry hInv hs ho
  obtain ⟨vm', f, heq, hI2, hpt2, hft2, -⟩ := access_valid_spec hInv hs ho he
  refine ⟨vm', f, _, _, _, heq, rfl, rfl, hpt2, hft2, ?_⟩
  intro f2 hf2
  rcases hI2.framePage f2 _ hf2 (ofNat_ne_neg_one _) with ⟨p2, e2, hv2, hpe2, hval2, hfr2⟩
  have hp2 : (seg.base + o) / vm.pageSize = p2 := Int.ofNat.inj hv2
  rw [← hp2, hpt2] at hpe2
  injection hpe2 with hee
  rw [← hee] at hfr2
  exact (Int.ofNat.inj hfr2).symm

/-- Claim C2: in every reachable state, the number of resident pages equals
the number of occupied frames, and the page-to-frame and frame-to-page maps
are mutual inverses on resident pages: an entry is valid iff its frame number
is a frame holding exactly that page, and at most one resident page maps to
each frame. -/
theorem resident_occupied_bijection
    (m ps : Nat) (names : List String) (pol : ReplacementPolicy)
    (hps : 0 < ps) (hdvd : ps ∣ m)
    (vm : VirtualMemoryManager) (hreach : Reachable (mkVMM m ps names pol) vm) :
    residentCount vm = occupiedCount vm ∧
    (∀ p e, vm.pageTable[p]? = some e →
      (e.valid = true ↔ ∃ f : Nat, e.frameNumber = Int.ofNat f ∧
        vm.frameTable[f]? = some (Int.ofNat p))) ∧
    (∀ (p1 p2 : Nat) (e1 e2 : PageTableEntry) (f : Nat),
      vm.pageTable[p1]? = some e1 → e1.valid = true → e1.frameNumber = Int.ofNat f →
      vm.pageTable[p2]? = some e2 → e2.valid = true → e2.frameNumber = Int.ofNat f →
      p1 = p2) := by
  obtain ⟨hInv, -, -, -, -, -⟩ := reachable_inv hdvd hreach
  refine ⟨resident_eq_occupied hInv, ?_, ?_⟩
  · intro p e he
    constructor
    · intro hval
      exact hInv.pageFrame p e he hval
    · rintro ⟨f, hfr, hft⟩
      rcases hInv.framePage f _ hft (ofNat_ne_neg_one p) with ⟨p2, e2, hv2, hpe2, hval2, -⟩
      have hp2 : p = p2 := Int.ofNat.inj hv2
      rw [← hp2, he] at hpe2
      injection hpe2 with hee
      rw [← hee] at hval2
      exact hval2
  · intro p1 p2 e1 e2 f he1 hval1 hfr1 he2 hval2 hfr2
    rcases hInv.pageFrame p1 e1 he1 hval1 with ⟨f1, hfr1b, hft1⟩
    rcases hInv.pageFrame p2 e2 he2 hval2 with ⟨f2, hfr2b, hft2⟩
    have hf1 : f1 = f := Int.ofNat.inj (hfr1b.symm.trans hfr1)
    have hf2 : f2 = f := Int.ofNat.inj (hfr2b.symm.trans hfr2)
    subst hf1
    subst hf2
    rw [hft1] at hft2
    injection hft2 with hv
    exact Int.ofNat.inj hv

/-- Claim C10: for an engine constructed with a positive page size that evenly
divides the memory size, every accepted request in a reachable state computes
a page number strictly below `numPages`, so all page- and frame-table indexing
in `accessAddress` and `handlePageFault` stays in bounds and the call never
reaches an undefined-behaviour (`none`) branch. -/
theorem page_index_in_bounds
    (m ps : Nat) (names : List String) (pol : ReplacementPolicy)
    (hps : 0 < ps) (hdvd : ps ∣ m)
    (vm : VirtualMemoryManager) (hreach : Reachable (mkVMM m ps names pol) vm)
    (s o : Nat) (seg : Segment) (hs : vm.segments[s]? = some seg)
    (ho : o < seg.limit) :
    (seg.base + o) / vm.pageSize < vm.numPages ∧
    accessAddress vm s o ≠ none ∧
    ∃ (vm' : VirtualMemoryManager) (pa : Nat) (fn : Int) (po : Nat) (fl : Bool),
      accessAddress vm s o = some (vm', AccessResult.ok (seg.base + o) pa fn po fl) := by
  obtain ⟨hInv, -, -, -, -, -⟩ := reachable_inv hdvd hreach
  obtain ⟨e, he, hpn⟩ := valid_request_entry hInv hs ho
  obtain ⟨vm', f, heq, -⟩ := access_valid_spec hInv hs ho he
  refine ⟨hpn, ?_, vm', _, _, _, _, heq⟩
  rw [heq]
  exact Option.noConfusion

/-- Claim C5: per `accessAddress` call, `accesses` goes up by exactly one iff
the arguments are valid (and the state is returned untouched otherwise), and
`pageFaults` goes up by exactly one iff the arguments are valid and the target
page was non-resident at call entry. -/
theorem access_counter_spec
    (m ps : Nat) (names : List String) (pol : ReplacementPolicy)
    (hps : 0 < ps) (hdvd : ps ∣ m)
    (vm : VirtualMemoryManager) (hreach : Reachable (mkVMM m ps names pol) vm)
    (s o : Nat) :
    (vm.segments[s]? = none →
      accessAddress vm s o = some (vm, AccessResult.invalidSegment)) ∧
    (∀ seg, vm.segments[s]? = some seg → seg.limit ≤ o →
      accessAddress vm s o = some (vm, AccessResult.offsetOutOfBounds)) ∧
    (∀ seg, vm.segments[s]? = some seg → o < seg.limit →
      ∃ (vm' : VirtualMemoryManager) (e : PageTableEntry) (pa : Nat) (fn : Int)
        (po : Nat),
        vm.pageTable[(seg.base + o) / vm.pageSize]? = some e ∧
        accessAddress vm s o =
          some (vm', AccessResult.ok (seg.base + o) pa fn po (!e.valid)) ∧
        vm'.accesses = vm.accesses + 1 ∧
        vm'.pageFaults = vm.pageFaults + (if e.valid then 0 else 1)) := by
  obtain ⟨hInv, -, -, -, -, -⟩ := reachable_inv hdvd hreach
  refine ⟨fun hnone => access_invalid_segment hnone,
    fun seg hs hlim => access_offset_oob hs hlim, ?_⟩
  intro seg hs ho
  obtain ⟨e, he, -⟩ := valid_request_entry hInv hs ho
  obtain ⟨vm', f, heq, -, -, -, hacc, hpf, -⟩ := access_valid_spec hInv hs ho he
  exact ⟨vm', e, _, _, _, he, heq, hacc, hpf⟩

/-- Claim C6: a request is rejected exactly when the segment index is out of
range (`InvalidSegment`) or the offset reaches the segment limit
(`OffsetOutOfBounds`) — in particular `offset = limit` is rejected and
`offset = limit - 1` is accepted — and a rejected request returns the engine
state completely unchanged. -/
theorem access_rejection_spec
    (m ps : Nat) (names : List String) (pol : ReplacementPolicy)
    (hps : 0 < ps) (hdvd : ps ∣ m)
    (vm : VirtualMemoryManager) (hreach : Reachable (mkVMM m ps names pol) vm) :
    (∀ s o : Nat, vm.segments.length ≤ s →
      accessAddress vm s o = some (vm, AccessResult.invalidSegment)) ∧
    (∀ (s o : Nat) (seg : Segment), vm.segments[s]? = some seg → seg.limit ≤ o →
      accessAddress vm s o = some (vm, AccessResult.offsetOutOfBounds)) ∧
    (∀ (s : Nat) (seg : Segment), vm.segments[s]? = some seg →
      accessAddress vm s seg.limit = some (vm, AccessResult.offsetOutOfBounds)) ∧
    (∀ (s o : Nat) (seg : Segment), vm.segments[s]? = some seg → o < seg.limit →
      ∃ (vm' : VirtualMemoryManager) (pa : Nat) (fn : Int) (po : Nat) (fl : Bool),
        accessAddress vm s o =
          some (vm', AccessResult.ok (seg.base + o) pa fn po fl)) ∧
    (∀ (s : Nat) (seg : Segment), vm.segments[s]? = some seg → 0 < seg.limit →
      ∃ (vm' : VirtualMemoryManager) (pa : Nat) (fn : Int) (po : Nat) (fl : Bool),
        accessAddress vm s (seg.limit - 1) =
          some (vm', AccessResult.ok (seg.base + (seg.limit - 1)) pa fn po fl)) := by
  obtain ⟨hInv, -, -, -, -, -⟩ := reachable_inv hdvd hreach
  have hvalid : ∀ (s o : Nat) (seg : Segment), vm.segments[s]? = some seg →
      o < seg.limit →
      ∃ (vm' : VirtualMemoryManager) (pa : Nat) (fn : Int) (po : Nat) (fl : Bool),
        accessAddress vm s o =
          some (vm', AccessResult.ok (seg.base + o) pa fn po fl) := by
    intro s o seg hs ho
    obtain ⟨e, he, -⟩ := valid_request_entry hInv hs ho
    obtain ⟨vm', f, heq, -⟩ := access_valid_spec hInv hs ho he
    exact ⟨vm', _, _, _, _, heq⟩
  refine ⟨?_, fun s o seg hs hlim => access_offset_oob hs hlim,
    fun s seg hs => access_offset_oob hs (Nat.le_refl _), hvalid, ?_⟩
  · intro s o hlen
    exact access_invalid_segment (List.getElem?_eq_none hlen)
  · intro s seg hs hpos
    exact hvalid s (seg.limit - 1) seg hs (by omega)

/-- Claim C8: in every reachable state of an engine with at least one frame,
the active tracker's size equals `numFrames` minus the number of free frames;
hence whenever no frame is free the tracker is non-empty (victim selection
never reads an empty container), and `handlePageFault` always completes
successfully on a non-resident page. -/
theorem victim_exists_fault_completes
    (m ps : Nat) (names : List String) (pol : ReplacementPolicy)
    (hps : 0 < ps) (hdvd : ps ∣ m) (hm : ps ≤ m)
    (vm : VirtualMemoryManager) (hreach : Reachable (mkVMM m ps names pol) vm) :
    (tracker vm).length + freeFrameCount vm = vm.numFrames ∧
    ((∀ (f : Nat) (v : Int), vm.frameTable[f]? = some v → v ≠ -1) →
      tracker vm ≠ []) ∧
    (∀ (p : Nat) (e : PageTableEntry), vm.pageTable[p]? = some e → e.valid = false →
      ∃ vmF, handlePageFault vm p = some vmF) := by
  obtain ⟨hInv, -, -, -, hnf, -⟩ := reachable_inv hdvd hreach
  have hlen : (tracker vm).length + freeFrameCount vm = vm.numFrames := by
    rw [tracker_length_eq_resident hInv, resident_eq_occupied hInv, ← hInv.ftLen]
    exact occupied_add_free
  refine ⟨hlen, ?_, ?_⟩
  · intro hocc hnil
    have hfree0 : freeFrameCount vm = 0 := by
      unfold freeFrameCount
      rw [Finset.card_eq_zero]
      apply Finset.filter_eq_empty_iff.mpr
      intro f hf
      have hflt := Finset.mem_range.mp hf
      have hne := hocc f vm.frameTable[f] (List.getElem?_eq_getElem hflt)
      simp only [List.getD_eq_getElem?_getD, List.getElem?_eq_getElem hflt,
        Option.getD_some]
      exact hne
    have hpos : 1 ≤ vm.numFrames := by
      rw [hnf]
      exact (Nat.one_le_div_iff hps).mpr hm
    rw [hnil] at hlen
    simp only [List.length_nil, Nat.zero_add] at hlen
    omega
  · intro p e he hv
    rcases handlePageFault_spec hInv he hv with ⟨f, -, -, hPF⟩
    exact ⟨_, hPF⟩

/-- Claim C9: calling `accessAddress` twice in a row with the same valid
arguments increments `accesses` by 2 in total, increments `pageFaults` by at
most 1 (by 0 on the second call), and both calls return the same physical
address. -/
theorem repeated_access_idempotent
    (m ps : Nat) (names : List String) (pol : ReplacementPolicy)
    (hps : 0 < ps) (hdvd : ps ∣ m)
    (vm : VirtualMemoryManager) (hreach : Reachable (mkVMM m ps names pol) vm)
    (s o : Nat) (seg : Segment) (hs : vm.segments[s]? = some seg)
    (ho : o < seg.limit) :
    ∃ (vm1 vm2 : VirtualMemoryManager) (f : Nat) (fl : Bool),
      accessAddress vm s o = some (vm1, AccessResult.ok (seg.base + o)
        (f * vm.pageSize + (seg.base + o) % vm.pageSize) (Int.ofNat f)
        ((seg.base + o) % vm.pageSize) fl) ∧
      accessAddress vm1 s o = some (vm2, AccessResult.ok (seg.base + o)
        (f * vm.pageSize + (seg.base + o) % vm.pageSize) (Int.ofNat f)
        ((seg.base + o) % vm.pageSize) false) ∧
      vm2.accesses = vm.accesses + 2 ∧
      vm2.pageFaults = vm1.pageFaults ∧
      vm1.pageFaults ≤ vm.pageFaults + 1 := by
  obtain ⟨hInv, -, -, -, -, -⟩ := reachable_inv hdvd hreach
  obtain ⟨e, he, -⟩ := valid_request_entry hInv hs ho
  obtain ⟨vm1, f, heq1, hI1, hpt1, -, hacc1, hpf1, hsegs1, hps1, -, -, -, -, -, -⟩ :=
    access_valid_spec hInv hs ho he
  have hs2 : vm1.segments[s]? = some seg := by
    rw [hsegs1]
    exact hs
  have he2 : vm1.pageTable[(seg.base + o) / vm1.pageSize]? =
      some { frameNumber := Int.ofNat f, valid := true } := by
    rw [hps1]
    exact hpt1
  obtain ⟨vm2, f2, heq2, -, -, -, hacc2, hpf2, -, -, -, -, -, hhit2, -, -⟩ :=
    access_valid_spec hI1 hs2 ho he2
  obtain ⟨hfr2, -, -, -⟩ := hhit2 rfl
  have hf : f2 = f := (Int.ofNat.inj hfr2).symm
  rw [hf, hps1] at heq2
  refine ⟨vm1, vm2, f, !e.valid, heq1, heq2, by omega, ?_, ?_⟩
  · simpa using hpf2
  · rw [hpf1]
    split <;> omega

/-- Claim C3 (code defect): under the FIFO policy, every page fault in a
reachable state finds a free frame — because the constructor makes
`numFrames = numPages`, "fault with no free frame" can never occur — so the
FIFO eviction branch is dead code: a faulting access only appends the page to
the queue, and a hit leaves the queue unchanged. -/
theorem fifo_fault_always_finds_free_frame
    (m ps : Nat) (names : List String) (hps : 0 < ps) (hdvd : ps ∣ m)
    (vm : VirtualMemoryManager)
    (hreach : Reachable (mkVMM m ps names ReplacementPolicy.FIFO) vm)
    (s o : Nat) (seg : Segment) (hs : vm.segments[s]? = some seg)
    (ho : o < seg.limit) (e : PageTableEntry)
    (he : vm.pageTable[(seg.base + o) / vm.pageSize]? = some e) :
    ∃ (vm' : VirtualMemoryManager) (pa : Nat) (fn : Int) (po : Nat),
      accessAddress vm s o =
        some (vm', AccessResult.ok (seg.base + o) pa fn po (!e.valid)) ∧
      (e.valid = false → findFreeFrame vm.frameTable 0 ≠ -1 ∧
        vm'.fifoQueue = vm.fifoQueue ++ [(seg.base + o) / vm.pageSize]) ∧
      (e.valid = true → vm'.fifoQueue = vm.fifoQueue) := by
  obtain ⟨hInv, -, -, -, -, hpol⟩ := reachable_inv hdvd hreach
  obtain ⟨vm', f, heq, -, -, -, -, -, -, -, -, -, -, hhit, hfault, -⟩ :=
    access_valid_spec hInv hs ho he
  refine ⟨vm', _, _, _, heq, ?_, ?_⟩
  · intro hv
    obtain ⟨hfind, hfifo, -⟩ := hfault hv
    refine ⟨?_, hfifo hpol⟩
    rw [hfind]
    exact ofNat_ne_neg_one f
  · intro hv
    obtain ⟨-, -, -, hq⟩ := hhit hv
    exact hq

/-- Claim C4 (code defect): under the LRU policy, every accepted access — hit
or fault — leaves the accessed page at the front of the recency list (most
recently used), and every page fault in a reachable state finds a free frame,
so the LRU eviction branch is dead code. -/
theorem lru_fault_always_finds_free_frame
    (m ps : Nat) (names : List String) (hps : 0 < ps) (hdvd : ps ∣ m)
    (vm : VirtualMemoryManager)
    (hreach : Reachable (mkVMM m ps names ReplacementPolicy.LRU) vm)
    (s o : Nat) (seg : Segment) (hs : vm.segments[s]? = some seg)
    (ho : o < seg.limit) (e : PageTableEntry)
    (he : vm.pageTable[(seg.base + o) / vm.pageSize]? = some e) :
    ∃ (vm' : VirtualMemoryManager) (pa : Nat) (fn : Int) (po : Nat),
      accessAddress vm s o =
        some (vm', AccessResult.ok (seg.base + o) pa fn po (!e.valid)) ∧
      vm'.lruList.head? = some ((seg.base + o) / vm.pageSize) ∧
      (e.valid = false → findFreeFrame vm.frameTable 0 ≠ -1 ∧
        vm'.lruList = (seg.base + o) / vm.pageSize :: vm.lruList) := by
  obtain ⟨hInv, -, -, -, -, hpol⟩ := reachable_inv hdvd hreach
  obtain ⟨vm', f, heq, -, -, -, -, -, -, -, -, -, -, -, hfault, hlru⟩ :=
    access_valid_spec hInv hs ho he
  refine ⟨vm', _, _, _, heq, hlru hpol, ?_⟩
  intro hv
  obtain ⟨hfind, -, hlst⟩ := hfault hv
  refine ⟨?_, hlst hpol⟩
  rw [hfind]
  exact ofNat_ne_neg_one f

/-- Claim C7 counterexample: construction with total memory 100 and page size
256 — a zero frame count — silently succeeds and produces an engine (with the
requested segment and zero frames); no configuration error is raised, and the
first in-segment access then runs into undefined behaviour. -/
theorem mk_zero_frames_counterexample :
    (mkVMM 100 256 ["Seg0"] ReplacementPolicy.FIFO).numFrames = 0 ∧
    (mkVMM 100 256 ["Seg0"] ReplacementPolicy.FIFO).segments =
      [{ name := "Seg0", base := 0, limit := 100 }] ∧
    accessAddress (mkVMM 100 256 ["Seg0"] ReplacementPolicy.FIFO) 0 0 = none := by
  refine ⟨rfl, ?_, rfl⟩
  rfl

/-- Claim C7 (amended): the constructor performs no validation and cannot
fail.  Whenever the divisors are nonzero (the only cases where the C++
division is defined), it returns an engine; in particular when the page size
exceeds a positive memory size it silently builds an engine with zero frames
and zero pages whose first in-segment access is undefined behaviour.  No
`ConfigurationError` exists anywhere in the code. -/
theorem mk_never_validates
    (m ps : Nat) (nm : String) (pol : ReplacementPolicy)
    (h0 : 0 < m) (hlt : m < ps) :
    (mkVMM m ps [nm] pol).numFrames = 0 ∧
    (mkVMM m ps [nm] pol).numPages = 0 ∧
    (mkVMM m ps [nm] pol).segments = [{ name := nm, base := 0, limit := m }] ∧
    accessAddress (mkVMM m ps [nm] pol) 0 0 = none := by
  have hdiv : m / ps = 0 := Nat.div_eq_of_lt hlt
  have hseg : (mkVMM m ps [nm] pol).segments =
      [{ name := nm, base := 0, limit := m }] := by
    have h1 : List.range 1 = [0] := rfl
    simp [mkVMM, h1]
  refine ⟨by simp [mkVMM, hdiv], by simp [mkVMM, hdiv], hseg, ?_⟩
  have hsg : (mkVMM m ps [nm] pol).segments[(0 : Nat)]? =
      some { name := nm, base := 0, limit := m } := by
    rw [hseg]
    rfl
  have hlim : ¬({ name := nm, base := 0, limit := m } : Segment).limit ≤ 0 := by
    show ¬m ≤ 0
    omega
  have hpt0 : (List.replicate (m / ps) { frameNumber := -1, valid := false } :
      List PageTableEntry)[(0 + 0 : Nat) / ps]? = none := by
    rw [hdiv]
    rfl
  exact access_pt_oob hsg hlim hpt0

/-- Witness for the C1 theorem: initial 1024-byte engine, 256-byte pages, one
segment, FIFO; request (0, 10). -/
theorem accessAddress_translation_correct_witness :
    ∃ (vm' : VirtualMemoryManager) (f pa po : Nat) (fl : Bool),
      accessAddress (mkVMM 1024 256 ["A"] ReplacementPolicy.FIFO) 0 10 =
        some (vm', AccessResult.ok 10 pa (Int.ofNat f) po fl) ∧
      pa = f * 256 + 10 ∧
      po = 10 ∧
      vm'.pageTable[(0 : Nat)]? = some { frameNumber := Int.ofNat f, valid := true } ∧
      vm'.frameTable[f]? = some (Int.ofNat 0) ∧
      (∀ f2 : Nat, vm'.frameTable[f2]? = some (Int.ofNat 0) → f2 = f) :=
  accessAddress_translation_correct 1024 256 ["A"] ReplacementPolicy.FIFO
    (by decide) ⟨4, rfl⟩ _ Reachable.refl 0 10
    { name := "A", base := 0, limit := 1024 } rfl (by decide)

/-- Witness for the C2 theorem at the initial 1024/256 single-segment FIFO
engine. -/
theorem resident_occupied_bijection_witness :
    residentCount (mkVMM 1024 256 ["A"] ReplacementPolicy.FIFO) =
      occupiedCount (mkVMM 1024 256 ["A"] ReplacementPolicy.FIFO) ∧
    (∀ p e, (mkVMM 1024 256 ["A"] ReplacementPolicy.FIFO).pageTable[p]? = some e →
      (e.valid = true ↔ ∃ f : Nat, e.frameNumber = Int.ofNat f ∧
        (mkVMM 1024 256 ["A"] ReplacementPolicy.FIFO).frameTable[f]? =
          some (Int.ofNat p))) ∧
    (∀ (p1 p2 : Nat) (e1 e2 : PageTableEntry) (f : Nat),
      (mkVMM 1024 256 ["A"] ReplacementPolicy.FIFO).pageTable[p1]? = some e1 →
      e1.valid = true → e1.frameNumber = Int.ofNat f →
      (mkVMM 1024 256 ["A"] ReplacementPolicy.FIFO).pageTable[p2]? = some e2 →
      e2.valid = true → e2.frameNumber = Int.ofNat f →
      p1 = p2) :=
  resident_occupied_bijection 1024 256 ["A"] ReplacementPolicy.FIFO
    (by decide) ⟨4, rfl⟩ _ Reachable.refl

/-- Witness for the C3 theorem: first access, page 0 not resident, FIFO. -/
theorem fifo_fault_always_finds_free_frame_witness :
    ∃ (vm' : VirtualMemoryManager) (pa : Nat) (fn : Int) (po : Nat),
      accessAddress (mkVMM 1024 256 ["A"] ReplacementPolicy.FIFO) 0 10 =
        some (vm', AccessResult.ok 10 pa fn po true) ∧
      (false = false →
        findFreeFrame (mkVMM 1024 256 ["A"] ReplacementPolicy.FIFO).frameTable 0 ≠ -1 ∧
        vm'.fifoQueue = [0]) ∧
      (false = true → vm'.fifoQueue = []) :=
  fifo_fault_always_finds_free_frame 1024 256 ["A"] (by decide) ⟨4, rfl⟩
    _ Reachable.refl 0 10 { name := "A", base := 0, limit := 1024 } rfl (by decide)
    { frameNumber := -1, valid := false } rfl

/-- Witness for the C4 theorem: first access, page 0 not resident, LRU. -/
theorem lru_fault_always_finds_free_frame_witness :
    ∃ (vm' : VirtualMemoryManager) (pa : Nat) (fn : Int) (po : Nat),
      accessAddress (mkVMM 1024 256 ["A"] ReplacementPolicy.LRU) 0 10 =
        some (vm', AccessResult.ok 10 pa fn po true) ∧
      vm'.lruList.head? = some 0 ∧
      (false = false →
        findFreeFrame (mkVMM 1024 256 ["A"] ReplacementPolicy.LRU).frameTable 0 ≠ -1 ∧
        vm'.lruList = [0]) :=
  lru_fault_always_finds_free_frame 1024 256 ["A"] (by decide) ⟨4, rfl⟩
    _ Reachable.refl 0 10 { name := "A", base := 0, limit := 1024 } rfl (by decide)
    { frameNumber := -1, valid := false } rfl

/-- Witness for the C5 theorem at the initial engine, request (0, 10). -/
theorem access_counter_spec_witness :
    ((mkVMM 1024 256 ["A"] ReplacementPolicy.FIFO).segments[(0 : Nat)]? = none →
      accessAddress (mkVMM 1024 256 ["A"] ReplacementPolicy.FIFO) 0 10 =
        some (mkVMM 1024 256 ["A"] ReplacementPolicy.FIFO,
          AccessResult.invalidSegment)) ∧
    (∀ seg, (mkVMM 1024 256 ["A"] ReplacementPolicy.FIFO).segments[(0 : Nat)]? =
        some seg → seg.limit ≤ 10 →
      accessAddress (mkVMM 1024 256 ["A"] ReplacementPolicy.FIFO) 0 10 =
        some (mkVMM 1024 256 ["A"] ReplacementPolicy.FIFO,
          AccessResult.offsetOutOfBounds)) ∧
    (∀ seg, (mkVMM 1024 256 ["A"] ReplacementPolicy.FIFO).segments[(0 : Nat)]? =
        some seg → 10 < seg.limit →
      ∃ (vm' : VirtualMemoryManager) (e : PageTableEntry) (pa : Nat) (fn : Int)
        (po : Nat),
        (mkVMM 1024 256 ["A"]
          ReplacementPolicy.FIFO).pageTable[(seg.base + 10) / 256]? = some e ∧
        accessAddress (mkVMM 1024 256 ["A"] ReplacementPolicy.FIFO) 0 10 =
          some (vm', AccessResult.ok (seg.base + 10) pa fn po (!e.valid)) ∧
        vm'.accesses = 1 ∧
        vm'.pageFaults = 0 + (if e.valid then 0 else 1)) :=
  access_counter_spec 1024 256 ["A"] ReplacementPolicy.FIFO (by decide) ⟨4, rfl⟩
    _ Reachable.refl 0 10

/-- Witness for the C6 theorem at the initial engine. -/
theorem access_rejection_spec_witness :
    (∀ s o : Nat,
      (mkVMM 1024 256 ["A"] ReplacementPolicy.FIFO).segments.length ≤ s →
      accessAddress (mkVMM 1024 256 ["A"] ReplacementPolicy.FIFO) s o =
        some (mkVMM 1024 256 ["A"] ReplacementPolicy.FIFO,
          AccessResult.invalidSegment)) ∧
    (∀ (s o : Nat) (seg : Segment),
      (mkVMM 1024 256 ["A"] ReplacementPolicy.FIFO).segments[s]? = some seg →
      seg.limit ≤ o →
      accessAddress (mkVMM 1024 256 ["A"] ReplacementPolicy.FIFO) s o =
        some (mkVMM 1024 256 ["A"] ReplacementPolicy.FIFO,
          AccessResult.offsetOutOfBounds)) ∧
    (∀ (s : Nat) (seg : Segment),
      (mkVMM 1024 256 ["A"] ReplacementPolicy.FIFO).segments[s]? = some seg →
      accessAddress (mkVMM 1024 256 ["A"] ReplacementPolicy.FIFO) s seg.limit =
        some (mkVMM 1024 256 ["A"] ReplacementPolicy.FIFO,
          AccessResult.offsetOutOfBounds)) ∧
    (∀ (s o : Nat) (seg : Segment),
      (mkVMM 1024 256 ["A"] ReplacementPolicy.FIFO).segments[s]? = some seg →
      o < seg.limit →
      ∃ (vm' : VirtualMemoryManager) (pa : Nat) (fn : Int) (po : Nat) (fl : Bool),
        accessAddress (mkVMM 1024 256 ["A"] ReplacementPolicy.FIFO) s o =
          some (vm', AccessResult.ok (seg.base + o) pa fn po fl)) ∧
    (∀ (s : Nat) (seg : Segment),
      (mkVMM 1024 256 ["A"] ReplacementPolicy.FIFO).segments[s]? = some seg →
      0 < seg.limit →
      ∃ (vm' : VirtualMemoryManager) (pa : Nat) (fn : Int) (po : Nat) (fl : Bool),
        accessAddress (mkVMM 1024 256 ["A"] ReplacementPolicy.FIFO) s
            (seg.limit - 1) =
          some (vm', AccessResult.ok (seg.base + (seg.limit - 1)) pa fn po fl)) :=
  access_rejection_spec 1024 256 ["A"] ReplacementPolicy.FIFO (by decide) ⟨4, rfl⟩
    _ Reachable.refl

/-- Witness for the C7 amended theorem: memory 100, page size 256. -/
theorem mk_never_validates_witness :
    (mkVMM 100 256 ["Seg0"] ReplacementPolicy.FIFO).numFrames = 0 ∧
    (mkVMM 100 256 ["Seg0"] ReplacementPolicy.FIFO).numPages = 0 ∧
    (mkVMM 100 256 ["Seg0"] ReplacementPolicy.FIFO).segments =
      [{ name := "Seg0", base := 0, limit := 100 }] ∧
    accessAddress (mkVMM 100 256 ["Seg0"] ReplacementPolicy.FIFO) 0 0 = none :=
  mk_never_validates 100 256 "Seg0" ReplacementPolicy.FIFO (by decide) (by decide)

/-- Witness for the C8 theorem at the initial engine. -/
theorem victim_exists_fault_completes_witness :
    (tracker (mkVMM 1024 256 ["A"] ReplacementPolicy.FIFO)).length +
      freeFrameCount (mkVMM 1024 256 ["A"] ReplacementPolicy.FIFO) = 4 ∧
    ((∀ (f : Nat) (v : Int),
        (mkVMM 1024 256 ["A"] ReplacementPolicy.FIFO).frameTable[f]? = some v →
        v ≠ -1) →
      tracker (mkVMM 1024 256 ["A"] ReplacementPolicy.FIFO) ≠ []) ∧
    (∀ (p : Nat) (e : PageTableEntry),
      (mkVMM 1024 256 ["A"] ReplacementPolicy.FIFO).pageTable[p]? = some e →
      e.valid = false →
      ∃ vmF, handlePageFault (mkVMM 1024 256 ["A"] ReplacementPolicy.FIFO) p =
        some vmF) :=
  victim_exists_fault_completes 1024 256 ["A"] ReplacementPolicy.FIFO
    (by decide) ⟨4, rfl⟩ (by decide) _ Reachable.refl

/-- Witness for the C9 theorem: request (0, 10) twice from the initial
engine. -/
theorem repeated_access_idempotent_witness :
    ∃ (vm1 vm2 : VirtualMemoryManager) (f : Nat) (fl : Bool),
      accessAddress (mkVMM 1024 256 ["A"] ReplacementPolicy.FIFO) 0 10 =
        some (vm1, AccessResult.ok 10 (f * 256 + 10) (Int.ofNat f) 10 fl) ∧
      accessAddress vm1 0 10 =
        some (vm2, AccessResult.ok 10 (f * 256 + 10) (Int.ofNat f) 10 false) ∧
      vm2.accesses = 2 ∧
      vm2.pageFaults = vm1.pageFaults ∧
      vm1.pageFaults ≤ 1 :=
  repeated_access_idempotent 1024 256 ["A"] ReplacementPolicy.FIFO
    (by decide) ⟨4, rfl⟩ _ Reachable.refl 0 10
    { name := "A", base := 0, limit := 1024 } rfl (by decide)

/-- Witness for the C10 theorem: request (0, 10) from the initial engine. -/
theorem page_index_in_bounds_witness :
    (0 : Nat) < 4 ∧
    accessAddress (mkVMM 1024 256 ["A"] ReplacementPolicy.FIFO) 0 10 ≠ none ∧
    ∃ (vm' : VirtualMemoryManager) (pa : Nat) (fn : Int) (po : Nat) (fl : Bool),
      accessAddress (mkVMM 1024 256 ["A"] ReplacementPolicy.FIFO) 0 10 =
        some (vm', AccessResult.ok 10 pa fn po fl) :=
  page_index_in_bounds 1024 256 ["A"] ReplacementPolicy.FIFO (by decide) ⟨4, rfl⟩
    _ Reachable.refl 0 10 { name := "A", base := 0, limit := 1024 } rfl (by decide)
